import Mathlib

/-!
Verification of the async-consul client library core: the options model,
the parameter/header projector, the response-metadata extractor, the
request builder's query-merge, and the blocking-query watch engine.

The definitions below are a shallow embedding of the Rust source:
  * `src/common.rs`  — options types, projection to query parameters and
    headers, `QueryMetadata::from_headers`, `QueryMetadata::as_blocking`;
  * `src/http_client.rs` — `HttpClient::build_request`;
  * `src/catalog.rs` — `Catalog::watch_service_nodes`.
Rust `Duration` is embedded as a count of nanoseconds (`Nat`); HTTP header
values received off the wire are byte lists (`List Nat`), since the code's
`to_str` conversion can fail on non-visible-ASCII bytes.
-/

deriving instance DecidableEq for Except

namespace AsyncConsul

/-- Embeds `std::time::Duration` as a count of nanoseconds. -/
abbrev Duration := Nat

/-- Rust `Duration::as_secs`. -/
def Duration.as_secs (d : Duration) : Nat := d / 1000000000

/-- Rust `Duration.as_millis`. -/
def Duration.as_millis (d : Duration) : Nat := d / 1000000

/-- Rust `Duration::from_secs`. -/
def Duration.from_secs (n : Nat) : Duration := n * 1000000000

/-- Rust `common::Consistency` (src/common.rs). -/
inductive Consistency
  | consistent
  | stale
deriving DecidableEq

/-- Rust `common::Blocking` (src/common.rs): index- or hash-based blocking. -/
inductive Blocking
  | index (idx : Nat)
  | hash (h : String)
deriving DecidableEq

/-- Rust `errors::ResponseError` (src/errors.rs). -/
inductive ResponseError
  | unexpectedStatus (status : Nat)
  | invalidHeaders (names : List String)
  | bodyConsumeFailure
  | invalidPayload
deriving DecidableEq

/-- Rust `errors::Error` (src/errors.rs). -/
inductive Error
  | invalidConsulEndpoint
  | invalidRequestBody
  | invalidRequest
  | requestError
  | requestTimedOut
  | responseError (e : ResponseError)
deriving DecidableEq

/-- Rust `common::QueryOptions` (src/common.rs).  Rust's `namespace` field is
named `nspace` here because `namespace` is a Lean keyword; `node_meta`
(a `HashMap<String, String>`) is embedded as the association list in the
map's iteration order. -/
structure QueryOptions where
  nspace : Option String := none
  datacenter : Option String := none
  token : Option String := none
  consistency : Option Consistency := none
  blocking : Option Blocking := none
  blocking_timeout : Option Duration := none
  use_cache : Bool := false
  cache_max_age : Option Duration := none
  cache_stale_if_error : Option Duration := none
  near : Option String := none
  node_meta : Option (List (String × String)) := none
  tag : Option String := none
  filtering : Option String := none
  relay_factor : Option Nat := none
  local_only : Bool := false
  connect : Bool := false
  timeout : Option Duration := none
deriving DecidableEq

/-- The caching-eligibility guard used twice in src/common.rs:
`self.use_cache && self.consistency.as_ref().map(|val| val != &Consistency::Consistent).unwrap_or(true)`. -/
def QueryOptions.cacheEligible (o : QueryOptions) : Bool :=
  o.use_cache && ((o.consistency.map (fun c => decide (c ≠ Consistency.consistent))).getD true)

/-- The `impl CollectQueryParameters for QueryOptions` (src/common.rs lines 271-349):
the ordered list of query-parameter pairs pushed by `as_pairs`. -/
def QueryOptions.queryParams (o : QueryOptions) : List (String × String) :=
  (match o.nspace with
    | some v => [("ns", v)]
    | none => [])
  ++ (match o.datacenter with
    | some v => [("dc", v)]
    | none => [])
  ++ (match o.consistency with
    | some Consistency.consistent => [("consistent", "1")]
    | some Consistency.stale => [("stale", "1")]
    | none => [])
  ++ (match o.blocking with
    | some b =>
      (match b with
        | Blocking.index idx => [("index", toString idx)]
        | Blocking.hash h => [("hash", h)])
      ++ (match o.blocking_timeout with
        | some t => [("wait", toString t.as_millis ++ "ms")]
        | none => [])
    | none => [])
  ++ (match o.near with
    | some v => [("near", v)]
    | none => [])
  ++ (match o.node_meta with
    | some kvs => kvs.map (fun kv => ("node-meta[]", kv.1 ++ ":" ++ kv.2))
    | none => [])
  ++ (match o.tag with
    | some v => [("tag", v)]
    | none => [])
  ++ (match o.filtering with
    | some v => [("filter", v)]
    | none => [])
  ++ (match o.relay_factor with
    | some v => [("relay-factor", toString v)]
    | none => [])
  ++ (if o.local_only then [("local-only", "true")] else [])
  ++ (if o.connect then [("connect", "true")] else [])
  ++ (if o.cacheEligible then [("cached", "1")] else [])

/-- The `impl CollectRequestHeaders for QueryOptions` (src/common.rs lines 351-389):
the ordered list of header pairs pushed by `as_pairs`. -/
def QueryOptions.requestHeaders (o : QueryOptions) : List (String × String) :=
  (match o.token with
    | some t => [("X-Consul-Token", t)]
    | none => [])
  ++ (if o.cacheEligible then
        let parts : List String :=
          (match o.cache_max_age with
            | some d => if d.as_secs > 0 then ["max-age=" ++ toString d.as_secs] else []
            | none => [])
          ++ (match o.cache_stale_if_error with
            | some d => if d.as_secs > 0 then ["stale-if-error=" ++ toString d.as_secs] else []
            | none => [])
        if parts.isEmpty then [] else [("Cache-Control", String.intercalate ", " parts)]
      else [])

/-- The `impl CollectQueryParameters for Option<T>` (src/common.rs lines 91-101). -/
def optQueryParams (o : Option QueryOptions) : List (String × String) :=
  match o with
  | some inner => inner.queryParams
  | none => []

/-- The `impl CollectRequestHeaders for Option<T>` (src/common.rs lines 103-113). -/
def optRequestHeaders (o : Option QueryOptions) : List (String × String) :=
  match o with
  | some inner => inner.requestHeaders
  | none => []

/-- Rust `common::QueryMetadata` (src/common.rs lines 398-419). -/
structure QueryMetadata where
  last_index : Option Nat := none
  last_content_hash : Option String := none
  known_leader : Bool := false
  last_contact : Duration := 0
  addr_translate_enabled : Bool := false
  cache_hit : Bool := false
  cache_age : Option Duration := none
deriving DecidableEq

/-- The byte-validity test inside `http::HeaderValue::to_str`: visible
ASCII or horizontal tab. -/
def isVisibleAscii (b : Nat) : Bool := (32 ≤ b && b < 127) || b == 9

/-- Rust `HeaderValue::to_str`, on a header value given as raw bytes: succeeds
only if every byte is visible ASCII (or tab), yielding those bytes as a
string. -/
def toStr? (bs : List Nat) : Option String :=
  if bs.all isVisibleAscii then some ⟨bs.map Char.ofNat⟩ else none

/-- Rust `str::parse::<u64>`: an optional leading plus sign, then at least one
ASCII digit, rejecting values outside `u64` range. -/
def parseU64? (s : String) : Option Nat :=
  let cs := s.data
  let cs := match cs with
    | '+' :: rest => rest
    | other => other
  if !cs.isEmpty && cs.all Char.isDigit then
    let n := cs.foldl (fun acc c => acc * 10 + (c.toNat - 48)) 0
    if n < 2 ^ 64 then some n else none
  else none

/-- ASCII lowercasing of one character; agrees with Rust's
`str::to_lowercase` on the visible-ASCII strings `to_str` can produce. -/
def lowerChar (c : Char) : Char :=
  if 'A' ≤ c && c ≤ 'Z' then Char.ofNat (c.toNat + 32) else c

/-- ASCII lowercasing of a string. -/
def asciiLower (s : String) : String := ⟨s.data.map lowerChar⟩

/-- The response headers `QueryMetadata::from_headers` consumes, each an
optional raw byte value as held by hyper's `HeaderMap`. -/
structure ResponseHeaders where
  xConsulIndex : Option (List Nat) := none
  xConsulContentHash : Option (List Nat) := none
  xConsulKnownLeader : Option (List Nat) := none
  xConsulTranslateAddresses : Option (List Nat) := none
  xCache : Option (List Nat) := none
  age : Option (List Nat) := none
deriving DecidableEq

/-- The `X-Consul-Index` block of `QueryMetadata::from_headers`
(src/common.rs lines 428-436), as a transformer of the
`(meta, errors)` accumulator. -/
def indexStep (raw? : Option (List Nat)) : QueryMetadata × List String → QueryMetadata × List String
  | (meta, errors) =>
    match raw? with
    | some raw =>
      match toStr? raw with
      | some s =>
        match parseU64? s with
        | some n => ({ meta with last_index := some n }, errors)
        | none => (meta, errors ++ ["X-Consul-Index"])
      | none => (meta, errors ++ ["X-Consul-Index"])
    | none => (meta, errors)

/-- The `X-Consul-ContentHash` block of `from_headers` (src/common.rs
lines 438-443). -/
def hashStep (raw? : Option (List Nat)) : QueryMetadata × List String → QueryMetadata × List String
  | (meta, errors) =>
    match raw? with
    | some raw =>
      match toStr? raw with
      | some s => ({ meta with last_content_hash := some s }, errors)
      | none => (meta, errors ++ ["X-Consul-ContentHash"])
    | none => (meta, errors)

/-- The `X-Consul-KnownLeader` block of `from_headers` (src/common.rs
lines 445-454). -/
def leaderStep (raw? : Option (List Nat)) : QueryMetadata × List String → QueryMetadata × List String
  | (meta, errors) =>
    match raw? with
    | some raw =>
      match toStr? raw with
      | some s =>
        if s = "true" then ({ meta with known_leader := true }, errors) else (meta, errors)
      | none => (meta, errors ++ ["X-Consul-KnownLeader"])
    | none => (meta, errors)

/-- The `X-Consul-Translate-Addresses` block of `from_headers`
(src/common.rs lines 456-465). -/
def translateStep (raw? : Option (List Nat)) : QueryMetadata × List String → QueryMetadata × List String
  | (meta, errors) =>
    match raw? with
    | some raw =>
      match toStr? raw with
      | some s =>
        if s = "true" then ({ meta with addr_translate_enabled := true }, errors) else (meta, errors)
      | none => (meta, errors ++ ["X-Consul-Translate-Addresses"])
    | none => (meta, errors)

/-- The `X-Cache` block of `from_headers` (src/common.rs lines 467-476);
note the comparison is against `"hit"` after lowercasing. -/
def cacheStep (raw? : Option (List Nat)) : QueryMetadata × List String → QueryMetadata × List String
  | (meta, errors) =>
    match raw? with
    | some raw =>
      match toStr? raw with
      | some s =>
        if asciiLower s = "hit" then ({ meta with cache_hit := true }, errors) else (meta, errors)
      | none => (meta, errors ++ ["X-Cache"])
    | none => (meta, errors)

/-- The `Age` block of `from_headers` (src/common.rs lines 478-486). -/
def ageStep (raw? : Option (List Nat)) : QueryMetadata × List String → QueryMetadata × List String
  | (meta, errors) =>
    match raw? with
    | some raw =>
      match toStr? raw with
      | some s =>
        match parseU64? s with
        | some n => ({ meta with cache_age := some (Duration.from_secs n) }, errors)
        | none => (meta, errors ++ ["Age"])
      | none => (meta, errors ++ ["Age"])
    | none => (meta, errors)

/-- Rust `QueryMetadata::from_headers` (src/common.rs lines 422-493): builds the
metadata header by header, accumulating the names of headers that were
present but failed `to_str`/numeric parsing, and fails with
`InvalidHeaders` iff that accumulator is non-empty. -/
def fromHeaders (h : ResponseHeaders) : Except ResponseError QueryMetadata :=
  let acc :=
    ageStep h.age
      (cacheStep h.xCache
        (translateStep h.xConsulTranslateAddresses
          (leaderStep h.xConsulKnownLeader
            (hashStep h.xConsulContentHash
              (indexStep h.xConsulIndex ({}, []))))))
  if acc.2.isEmpty then Except.ok acc.1 else Except.error (ResponseError.invalidHeaders acc.2)

/-- Rust `QueryMetadata::as_blocking` (src/common.rs lines 495-505). -/
def asBlocking (m : QueryMetadata) : Option Blocking :=
  match m.last_content_hash with
  | some h => some (Blocking.hash h)
  | none =>
    match m.last_index with
    | some i => some (Blocking.index i)
    | none => none

/-- The bytes of an ASCII string, for writing concrete header values. -/
def strBytes (s : String) : List Nat := s.data.map Char.toNat

/-- First-of-two option choice, used to describe how a header block
overrides a metadata field when its value parses. -/
def orOpt (a b : Option α) : Option α :=
  match a with
  | some x => some x
  | none => b

/-- Whether a header holding a numeric value (index, age) was present but
failed `to_str` or `u64` parsing. -/
def numHeaderFails (raw? : Option (List Nat)) : Bool :=
  match raw? with
  | some raw =>
    match toStr? raw with
    | some s => (parseU64? s).isNone
    | none => true
  | none => false

/-- Whether a header consumed as a plain string was present but failed
`to_str`. -/
def strHeaderFails (raw? : Option (List Nat)) : Bool :=
  match raw? with
  | some raw => (toStr? raw).isNone
  | none => false

/-- The parsed numeric value of a header, when present and well-formed. -/
def numHeaderVal (raw? : Option (List Nat)) : Option Nat :=
  match raw? with
  | some raw => (toStr? raw).bind parseU64?
  | none => none

/-- The string value of a header, when present and well-formed. -/
def strHeaderVal (raw? : Option (List Nat)) : Option String :=
  match raw? with
  | some raw => toStr? raw
  | none => none

/-- The boolean derived from a header compared case-sensitively against
the literal `true`. -/
def exactTrueVal (raw? : Option (List Nat)) : Bool :=
  match strHeaderVal raw? with
  | some s => s = "true"
  | none => false

/-- The boolean derived from the cache-hit header: its value lowercased
equals `hit`. -/
def cacheHitVal (raw? : Option (List Nat)) : Bool :=
  match strHeaderVal raw? with
  | some s => asciiLower s = "hit"
  | none => false

/-- The metadata that header extraction produces when no header is
malformed, field by field. -/
def specMeta (h : ResponseHeaders) : QueryMetadata where
  last_index := numHeaderVal h.xConsulIndex
  last_content_hash := strHeaderVal h.xConsulContentHash
  known_leader := exactTrueVal h.xConsulKnownLeader
  last_contact := 0
  addr_translate_enabled := exactTrueVal h.xConsulTranslateAddresses
  cache_hit := cacheHitVal h.xCache
  cache_age := (numHeaderVal h.age).map Duration.from_secs

/-- The `Cache-Control` component list as the spec describes it: a
`max-age=<seconds>` component exactly when the configured max age is at
least one whole second, then a `stale-if-error=<seconds>` component
exactly when that duration is at least one whole second. -/
def cacheControlComponents (o : QueryOptions) : List String :=
  (match o.cache_max_age with
    | some d => if 0 < d.as_secs then ["max-age=" ++ toString d.as_secs] else []
    | none => [])
  ++ (match o.cache_stale_if_error with
    | some d => if 0 < d.as_secs then ["stale-if-error=" ++ toString d.as_secs] else []
    | none => [])

/-- The names of the headers that were present but malformed, in the
order `from_headers` checks them. -/
def malformedNames (h : ResponseHeaders) : List String :=
  (if numHeaderFails h.xConsulIndex then ["X-Consul-Index"] else [])
  ++ (if strHeaderFails h.xConsulContentHash then ["X-Consul-ContentHash"] else [])
  ++ (if strHeaderFails h.xConsulKnownLeader then ["X-Consul-KnownLeader"] else [])
  ++ (if strHeaderFails h.xConsulTranslateAddresses then ["X-Consul-Translate-Addresses"] else [])
  ++ (if strHeaderFails h.xCache then ["X-Cache"] else [])
  ++ (if numHeaderFails h.age then ["Age"] else [])

/-- A hierarchical base endpoint as `build_request` uses it: its path
segments and its already-encoded query pairs (src/http_client.rs). -/
structure Url where
  pathSegments : List String
  queryPairs : List (String × String)
deriving DecidableEq

/-- One `HashMap::insert` step of the query merge in `build_request`:
replace the value at an existing key, else add the pair.  The embedding
keeps the map as an association list with distinct keys; iteration order
of the Rust `HashMap` is unspecified, and no theorem below depends on the
order this model picks. -/
def upsertPair (m : List (String × String)) (k v : String) : List (String × String) :=
  if m.any (fun p => p.1 == k) then m.map (fun p => if p.1 == k then (k, v) else p)
  else m ++ [(k, v)]

/-- Embeds `new_path.query_pairs() ... .collect::<HashMap<_, _>>()`
(src/http_client.rs lines 56-61): the base endpoint's query pairs
collected into a map, later duplicates overwriting earlier ones. -/
def collectMap (ps : List (String × String)) : List (String × String) :=
  ps.foldl (fun m p => upsertPair m p.1 p.2) []

/-- The merge loop of `build_request` (src/http_client.rs lines 63-65):
each projected pair is inserted over the collected base pairs. -/
def mergeQueryPairs (existing pairs : List (String × String)) : List (String × String) :=
  pairs.foldl (fun m p => upsertPair m p.1 p.2) (collectMap existing)

/-- Validity of one byte of an `http::HeaderValue`
(`HeaderValue::from_bytes`): at least 32 and not DEL, or horizontal tab.
Characters at code points 128 and above encode to bytes that satisfy the
same test. -/
def validHeaderValueChar (c : Char) : Bool :=
  c.toNat == 9 || (32 ≤ c.toNat && c.toNat != 127)

/-- Validity of a projected header value under `HeaderValue::from_bytes`. -/
def validHeaderValue (s : String) : Bool := s.data.all validHeaderValueChar

/-- Validity of one character of an `http::HeaderName`: a letter, a digit,
or one of the token punctuation characters the header grammar allows. -/
def validHeaderNameChar (c : Char) : Bool :=
  c.isAlpha || c.isDigit ||
    [33, 35, 36, 37, 38, 39, 42, 43, 45, 46, 94, 95, 96, 124, 126].contains c.toNat

/-- Validity of a projected header name under `HeaderName::from_bytes`. -/
def validHeaderName (s : String) : Bool := !s.isEmpty && s.data.all validHeaderNameChar

/-- The observable outcome of `HttpClient::build_request`: a request with
its final URL and attached headers, an error return, or a panic (the
source converts projected header pairs with
`HeaderName::from_bytes(..).expect(..)` / `HeaderValue::from_bytes(..).expect(..)`,
which aborts instead of returning an error when a pair is invalid). -/
inductive BuildOutcome where
  | built (url : Url) (headers : List (String × String))
  | err (e : Error)
  | panicked
deriving DecidableEq

/-- Rust `HttpClient::build_request` (src/http_client.rs lines 30-92) for the
catalog calls: the body is the unit value `()`, whose JSON serialization
cannot fail, and the method literal and URL-rendered URI always satisfy
`Request::builder`, so the `InvalidRequestBody` and `InvalidRequest`
return paths are not taken; the remaining observable behavior is the
extended path, the merged query (merged only when the projector produced
at least one pair), and the attached headers, with a panic when a
projected header name or value is invalid. -/
def buildRequest (base : Url) (urlParts : List String) (options : Option QueryOptions) :
    BuildOutcome :=
  let newPath := base.pathSegments ++ urlParts
  let pairs := optQueryParams options
  let query := if pairs.isEmpty then base.queryPairs else mergeQueryPairs base.queryPairs pairs
  let headers := optRequestHeaders options
  if headers.all (fun p => validHeaderName p.1 && validHeaderValue p.2) then
    BuildOutcome.built { pathSegments := newPath, queryPairs := query } headers
  else
    BuildOutcome.panicked

/-- The value at the first occurrence of a key in a pair list. -/
def firstVal : List (String × String) → String → Option String
  | [], _ => none
  | p :: rest, k => if p.1 == k then some p.2 else firstVal rest k

/-- The value at the last occurrence of a key in a pair list. -/
def lastVal : List (String × String) → String → Option String
  | [], _ => none
  | p :: rest, k =>
    match lastVal rest k with
    | some v => some v
    | none => if p.1 == k then some p.2 else none

/-- What the transport and body decode stage hand back for one request of
the watch loop: the response status, its headers, and the result of
decoding its body. -/
structure MockResponse (α : Type) where
  status : Nat
  headers : ResponseHeaders
  body : Except ResponseError α
deriving DecidableEq

/-- Rust `StatusCode::is_success`. -/
def isSuccessStatus (s : Nat) : Bool := 200 ≤ s && s < 300

/-- One item of the stream `watch_service_nodes` produces. -/
abbrev WatchItem (α : Type) := Except Error (α × QueryMetadata)

/-- The loop body of `Catalog::watch_service_nodes` (src/catalog.rs lines
146-160), run for at most `fuel` iterations: each iteration overrides the
options' blocking field with the carried condition, builds the request,
runs it through the abstract transport (indexed by call number, and
standing for `run_request` together with reading the body), checks the
status, extracts metadata, decodes the body, yields the item, and carries
`meta.as_blocking()` into the next iteration; the `?` on any failing
stage yields that error once and ends the stream.  Returns the yielded
items and the blocking condition each issued request carried. -/
def watchGo (transport : Nat → Except Error (MockResponse α)) (base : Url)
    (service : String) (opts : QueryOptions) :
    Nat → Nat → Option Blocking → List (WatchItem α) × List (Option Blocking)
  | 0, _, _ => ([], [])
  | fuel + 1, callIdx, blocking =>
    let optsNow := { opts with blocking := blocking }
    match buildRequest base ["v1", "catalog", "service", service] (some optsNow) with
    | BuildOutcome.err e => ([Except.error e], [])
    | BuildOutcome.panicked => ([], [])
    | BuildOutcome.built _ _ =>
      match transport callIdx with
      | Except.error e => ([Except.error e], [blocking])
      | Except.ok resp =>
        if isSuccessStatus resp.status then
          match fromHeaders resp.headers with
          | Except.error e => ([Except.error (Error.responseError e)], [blocking])
          | Except.ok meta =>
            match resp.body with
            | Except.error e => ([Except.error (Error.responseError e)], [blocking])
            | Except.ok payload =>
              let rest := watchGo transport base service opts fuel (callIdx + 1) (asBlocking meta)
              (Except.ok (payload, meta) :: rest.1, blocking :: rest.2)
        else
          ([Except.error (Error.responseError (ResponseError.unexpectedStatus resp.status))],
            [blocking])

/-- Rust `Catalog::watch_service_nodes` (src/catalog.rs lines 135-161), run for
at most `fuel` iterations: absent options are replaced by the default
(`options.or_else(|| Some(QueryOptions::default()))`), and the loop
starts with no carried blocking condition. -/
def watchServiceNodes (transport : Nat → Except Error (MockResponse α)) (base : Url)
    (service : String) (options : Option QueryOptions) (fuel : Nat) :
    List (WatchItem α) × List (Option Blocking) :=
  watchGo transport base service (options.getD {}) fuel 0 none

/-- The mock transport of the watch scenario: a response carrying index 1,
then a response carrying index 2, then a connection-reset error
(surfaced by `run_request` as `Error::RequestError`). -/
def mockTransport : Nat → Except Error (MockResponse Nat)
  | 0 => Except.ok { status := 200, headers := { xConsulIndex := some (strBytes "1") }, body := Except.ok 10 }
  | 1 => Except.ok { status := 200, headers := { xConsulIndex := some (strBytes "2") }, body := Except.ok 20 }
  | _ => Except.error Error.requestError

theorem indexStep_eq (raw? : Option (List Nat)) (m : QueryMetadata) (e : List String) :
    indexStep raw? (m, e) =
      ({ m with last_index := orOpt (numHeaderVal raw?) m.last_index },
        e ++ if numHeaderFails raw? then ["X-Consul-Index"] else []) := by
  cases raw? with
  | none => simp [indexStep, numHeaderVal, numHeaderFails, orOpt]
  | some raw =>
    cases hts : toStr? raw with
    | none => simp [indexStep, numHeaderVal, numHeaderFails, orOpt, hts]
    | some s =>
      cases hp : parseU64? s with
      | none => simp [indexStep, numHeaderVal, numHeaderFails, orOpt, hts, hp]
      | some n => simp [indexStep, numHeaderVal, numHeaderFails, orOpt, hts, hp]

theorem hashStep_eq (raw? : Option (List Nat)) (m : QueryMetadata) (e : List String) :
    hashStep raw? (m, e) =
      ({ m with last_content_hash := orOpt (strHeaderVal raw?) m.last_content_hash },
        e ++ if strHeaderFails raw? then ["X-Consul-ContentHash"] else []) := by
  cases raw? with
  | none => simp [hashStep, strHeaderVal, strHeaderFails, orOpt]
  | some raw =>
    cases hts : toStr? raw with
    | none => simp [hashStep, strHeaderVal, strHeaderFails, orOpt, hts]
    | some s => simp [hashStep, strHeaderVal, strHeaderFails, orOpt, hts]

theorem leaderStep_eq (raw? : Option (List Nat)) (m : QueryMetadata) (e : List String) :
    leaderStep raw? (m, e) =
      ({ m with known_leader := m.known_leader || exactTrueVal raw? },
        e ++ if strHeaderFails raw? then ["X-Consul-KnownLeader"] else []) := by
  cases raw? with
  | none => simp [leaderStep, exactTrueVal, strHeaderVal, strHeaderFails]
  | some raw =>
    cases hts : toStr? raw with
    | none => simp [leaderStep, exactTrueVal, strHeaderVal, strHeaderFails, hts]
    | some s =>
      by_cases hs : s = "true" <;>
        simp [leaderStep, exactTrueVal, strHeaderVal, strHeaderFails, hts, hs]

theorem translateStep_eq (raw? : Option (List Nat)) (m : QueryMetadata) (e : List String) :
    translateStep raw? (m, e) =
      ({ m with addr_translate_enabled := m.addr_translate_enabled || exactTrueVal raw? },
        e ++ if strHeaderFails raw? then ["X-Consul-Translate-Addresses"] else []) := by
  cases raw? with
  | none => simp [translateStep, exactTrueVal, strHeaderVal, strHeaderFails]
  | some raw =>
    cases hts : toStr? raw with
    | none => simp [translateStep, exactTrueVal, strHeaderVal, strHeaderFails, hts]
    | some s =>
      by_cases hs : s = "true" <;>
        simp [translateStep, exactTrueVal, strHeaderVal, strHeaderFails, hts, hs]

theorem cacheStep_eq (raw? : Option (List Nat)) (m : QueryMetadata) (e : List String) :
    cacheStep raw? (m, e) =
      ({ m with cache_hit := m.cache_hit || cacheHitVal raw? },
        e ++ if strHeaderFails raw? then ["X-Cache"] else []) := by
  cases raw? with
  | none => simp [cacheStep, cacheHitVal, strHeaderVal, strHeaderFails]
  | some raw =>
    cases hts : toStr? raw with
    | none => simp [cacheStep, cacheHitVal, strHeaderVal, strHeaderFails, hts]
    | some s =>
      by_cases hs : asciiLower s = "hit" <;>
        simp [cacheStep, cacheHitVal, strHeaderVal, strHeaderFails, hts, hs]

theorem ageStep_eq (raw? : Option (List Nat)) (m : QueryMetadata) (e : List String) :
    ageStep raw? (m, e) =
      ({ m with cache_age := orOpt ((numHeaderVal raw?).map Duration.from_secs) m.cache_age },
        e ++ if numHeaderFails raw? then ["Age"] else []) := by
  cases raw? with
  | none => simp [ageStep, numHeaderVal, numHeaderFails, orOpt]
  | some raw =>
    cases hts : toStr? raw with
    | none => simp [ageStep, numHeaderVal, numHeaderFails, orOpt, hts]
    | some s =>
      cases hp : parseU64? s with
      | none => simp [ageStep, numHeaderVal, numHeaderFails, orOpt, hts, hp]
      | some n => simp [ageStep, numHeaderVal, numHeaderFails, orOpt, hts, hp]

theorem orOpt_none (a : Option α) : orOpt a none = a := by
  cases a <;> rfl

/-- Header extraction, in closed form: it succeeds with the field-by-field
metadata exactly when no present header is malformed, and otherwise fails
listing all malformed header names in check order. -/
theorem fromHeaders_spec (h : ResponseHeaders) :
    fromHeaders h =
      if malformedNames h = [] then Except.ok (specMeta h)
      else Except.error (ResponseError.invalidHeaders (malformedNames h)) := by
  show (if _ then _ else _) = _
  rw [indexStep_eq, hashStep_eq, leaderStep_eq, translateStep_eq, cacheStep_eq, ageStep_eq]
  simp only [orOpt_none, Bool.false_or, List.nil_append, List.append_assoc]
  simp [malformedNames, specMeta, List.isEmpty_iff, List.append_assoc]

theorem firstVal_append (a b : List (String × String)) (k : String) :
    firstVal (a ++ b) k =
      match firstVal a k with
      | some v => some v
      | none => firstVal b k := by
  induction a with
  | nil => simp [firstVal]
  | cons p rest ih =>
    by_cases hp : p.1 = k <;> simp [firstVal, hp, ih]

theorem firstVal_eq_none (m : List (String × String)) (k : String)
    (h : m.any (fun p => p.1 == k) = false) : firstVal m k = none := by
  induction m with
  | nil => rfl
  | cons p rest ih =>
    rw [List.any_cons, Bool.or_eq_false_iff] at h
    have h1 : ¬ p.1 = k := by simpa using h.1
    simp [firstVal, h1, ih h.2]

theorem firstVal_map_replace_self (m : List (String × String)) (k v : String)
    (h : m.any (fun p => p.1 == k) = true) :
    firstVal (m.map (fun p => if p.1 == k then (k, v) else p)) k = some v := by
  simp only [beq_iff_eq]
  induction m with
  | nil => simp at h
  | cons p rest ih =>
    by_cases hp : p.1 = k
    · simp [firstVal, hp]
    · rw [List.any_cons] at h
      have h2 : rest.any (fun p => p.1 == k) = true := by simpa [hp] using h
      simp [firstVal, hp, ih h2]

theorem firstVal_map_replace_other (m : List (String × String)) (k v k' : String)
    (hk : ¬ k' = k) :
    firstVal (m.map (fun p => if p.1 == k then (k, v) else p)) k' = firstVal m k' := by
  simp only [beq_iff_eq]
  induction m with
  | nil => rfl
  | cons p rest ih =>
    by_cases hp : p.1 = k
    · have hkk : ¬ k = k' := fun h => hk (Eq.symm h)
      have hpk : ¬ p.1 = k' := fun h => hk (h ▸ hp)
      simp [firstVal, hp, hkk, hpk, ih]
    · simp [firstVal, hp, ih]

theorem firstVal_upsert_self (m : List (String × String)) (k v : String) :
    firstVal (upsertPair m k v) k = some v := by
  rw [upsertPair]
  by_cases hany : m.any (fun p => p.1 == k)
  · rw [if_pos hany]
    exact firstVal_map_replace_self m k v hany
  · rw [if_neg hany, firstVal_append,
      firstVal_eq_none m k (Bool.eq_false_iff.mpr hany)]
    simp [firstVal]

theorem firstVal_upsert_other (m : List (String × String)) (k v k' : String)
    (hk : ¬ k' = k) : firstVal (upsertPair m k v) k' = firstVal m k' := by
  rw [upsertPair]
  by_cases hany : m.any (fun p => p.1 == k)
  · rw [if_pos hany]
    exact firstVal_map_replace_other m k v k' hk
  · rw [if_neg hany, firstVal_append]
    have hkk : ¬ k = k' := fun h => hk (Eq.symm h)
    cases hf : firstVal m k' <;> simp [firstVal, hkk]

theorem firstVal_foldl_upsert (ps : List (String × String)) (acc : List (String × String))
    (k : String) :
    firstVal (ps.foldl (fun m p => upsertPair m p.1 p.2) acc) k =
      match lastVal ps k with
      | some v => some v
      | none => firstVal acc k := by
  induction ps generalizing acc with
  | nil => simp [lastVal]
  | cons p rest ih =>
    simp only [List.foldl_cons]
    rw [ih]
    cases hl : lastVal rest k with
    | some v => simp [lastVal, hl]
    | none =>
      by_cases hp : p.1 = k
      · simp [lastVal, hl, hp, hp ▸ firstVal_upsert_self acc p.1 p.2]
      · have hkp : ¬ k = p.1 := fun h => hp (Eq.symm h)
        simp [lastVal, hl, hp, firstVal_upsert_other acc p.1 p.2 k hkp]

theorem firstVal_collectMap (ps : List (String × String)) (k : String) :
    firstVal (collectMap ps) k = lastVal ps k := by
  rw [collectMap, firstVal_foldl_upsert]
  cases lastVal ps k <;> simp [firstVal]

theorem firstVal_mergeQueryPairs (existing pairs : List (String × String)) (k : String) :
    firstVal (mergeQueryPairs existing pairs) k =
      match lastVal pairs k with
      | some v => some v
      | none => lastVal existing k := by
  rw [mergeQueryPairs, firstVal_foldl_upsert]
  cases lastVal pairs k <;> simp [firstVal_collectMap]

theorem keys_upsert (m : List (String × String)) (k v : String) :
    (upsertPair m k v).map Prod.fst =
      if m.any (fun p => p.1 == k) then m.map Prod.fst else m.map Prod.fst ++ [k] := by
  by_cases hany : m.any (fun p => p.1 == k)
  · simp only [upsertPair, hany, if_pos, List.map_map]
    refine List.map_congr_left fun p _ => ?_
    by_cases hp : p.1 = k <;> simp [hp]
  · simp [upsertPair, hany]

theorem nodup_keys_upsert (m : List (String × String)) (k v : String)
    (h : (m.map Prod.fst).Nodup) : ((upsertPair m k v).map Prod.fst).Nodup := by
  rw [keys_upsert]
  by_cases hany : m.any (fun p => p.1 == k)
  · simpa [hany] using h
  · simp only [hany, Bool.false_eq_true, if_false]
    refine List.Nodup.append h (List.nodup_singleton k) ?_
    intro a ha hmem
    rcases List.mem_singleton.mp hmem with rfl
    rcases List.mem_map.mp ha with ⟨p, hp, rfl⟩
    have : m.any (fun q => q.1 == p.1) = true := List.any_of_mem hp (by simp)
    simp_all

theorem nodup_keys_foldl_upsert (ps acc : List (String × String))
    (h : (acc.map Prod.fst).Nodup) :
    (((ps.foldl (fun m p => upsertPair m p.1 p.2) acc)).map Prod.fst).Nodup := by
  induction ps generalizing acc with
  | nil => simpa using h
  | cons p rest ih => exact ih _ (nodup_keys_upsert acc p.1 p.2 h)

theorem nodup_keys_mergeQueryPairs (existing pairs : List (String × String)) :
    ((mergeQueryPairs existing pairs).map Prod.fst).Nodup := by
  exact nodup_keys_foldl_upsert _ _ (nodup_keys_foldl_upsert _ _ (by simp))

theorem firstVal_isSome_iff (ps : List (String × String)) (k : String) :
    (firstVal ps k).isSome = true ↔ k ∈ ps.map Prod.fst := by
  induction ps with
  | nil => simp [firstVal]
  | cons p rest ih =>
    by_cases hp : p.1 = k
    · simp [firstVal, hp]
    · have hkp : ¬ k = p.1 := fun h => hp (Eq.symm h)
      simp [firstVal, hp, ih, hkp]

theorem lastVal_isSome_iff (ps : List (String × String)) (k : String) :
    (lastVal ps k).isSome = true ↔ k ∈ ps.map Prod.fst := by
  induction ps with
  | nil => simp [lastVal]
  | cons p rest ih =>
    cases hl : lastVal rest k with
    | some v =>
      have hmem : k ∈ rest.map Prod.fst := by simp [← ih, hl]
      simp [lastVal, hl, hmem]
    | none =>
      have hmem : ¬ k ∈ rest.map Prod.fst := by simp [← ih, hl]
      by_cases hp : p.1 = k
      · simp [lastVal, hl, hp, hmem]
      · have hkp : ¬ k = p.1 := fun h => hp (Eq.symm h)
        simp [lastVal, hl, hp, hmem, hkp]

theorem mem_queryParams_key (o : QueryOptions) (p : String × String)
    (hp : p ∈ o.queryParams) :
    p.1 ∈ ["ns", "dc", "consistent", "stale", "index", "hash", "wait", "near",
      "node-meta[]", "tag", "filter", "relay-factor", "local-only", "connect"] ∨
      (p = ("cached", "1") ∧ o.cacheEligible = true) := by
  simp only [QueryOptions.queryParams, List.mem_append] at hp
  rcases hp with
    ((((((((((hp | hp) | hp) | hp) | hp) | hp) | hp) | hp) | hp) | hp) | hp) | hp
  · cases hx : o.nspace <;> simp_all
  · cases hx : o.datacenter <;> simp_all
  · cases hx : o.consistency with
    | none => simp_all
    | some c => cases c <;> simp_all
  · cases hx : o.blocking with
    | none => simp_all
    | some b =>
      rw [hx] at hp
      simp only [List.mem_append] at hp
      rcases hp with hp | hp
      · cases b <;> simp_all
      · cases hy : o.blocking_timeout <;> simp_all
  · cases hx : o.near <;> simp_all
  · cases hx : o.node_meta with
    | none => simp_all
    | some kvs =>
      rw [hx] at hp
      rcases List.mem_map.mp hp with ⟨kv, _, rfl⟩
      simp
  · cases hx : o.tag <;> simp_all
  · cases hx : o.filtering <;> simp_all
  · cases hx : o.relay_factor <;> simp_all
  · by_cases hx : o.local_only <;> simp_all
  · by_cases hx : o.connect <;> simp_all
  · by_cases hx : o.cacheEligible
    · rw [if_pos hx] at hp
      exact Or.inr ⟨List.mem_singleton.mp hp, hx⟩
    · rw [if_neg hx] at hp
      simp at hp

theorem mem_requestHeaders_key (o : QueryOptions) (p : String × String)
    (hp : p ∈ o.requestHeaders) :
    p.1 = "X-Consul-Token" ∨ (p.1 = "Cache-Control" ∧ o.cacheEligible = true) := by
  simp only [QueryOptions.requestHeaders, List.mem_append] at hp
  rcases hp with hp | hp
  · cases hx : o.token <;> simp_all
  · by_cases hx : o.cacheEligible
    · rw [if_pos hx] at hp
      split at hp
      · simp at hp
      · simp_all
    · rw [if_neg hx] at hp
      simp at hp

/-- C2.  The next blocking condition derived from query metadata prefers
the content hash over the index, falls back to the index, and is absent
when neither is present. -/
theorem catalog_c2 (m : QueryMetadata) :
    (∀ h, m.last_content_hash = some h → asBlocking m = some (Blocking.hash h)) ∧
    (m.last_content_hash = none →
      ∀ i, m.last_index = some i → asBlocking m = some (Blocking.index i)) ∧
    (m.last_content_hash = none → m.last_index = none → asBlocking m = none) := by
  refine ⟨fun h hh => ?_, fun hh i hi => ?_, fun hh hi => ?_⟩ <;>
    simp [asBlocking, hh]
  · rw [hi]
  · rw [hi]

theorem catalog_c2_witness :
    asBlocking { last_content_hash := some "deadbeef", last_index := some 42 } =
        some (Blocking.hash "deadbeef") ∧
      asBlocking { last_index := some 42 } = some (Blocking.index 42) ∧
      asBlocking {} = none :=
  ⟨(catalog_c2 _).1 "deadbeef" rfl, (catalog_c2 _).2.1 rfl 42 rfl, (catalog_c2 _).2.2 rfl rfl⟩

/-- C3.  A fully consistent read with `use_cache` set projects no `cached`
query parameter and no `Cache-Control` header: the conflicting flag is
silently ignored by the projection, which cannot fail. -/
theorem catalog_c3 (o : QueryOptions) (hc : o.consistency = some Consistency.consistent)
    (_hu : o.use_cache = true) :
    (∀ p ∈ o.queryParams, p.1 ≠ "cached") ∧
    (∀ p ∈ o.requestHeaders, p.1 ≠ "Cache-Control") := by
  have helig : o.cacheEligible = false := by
    simp [QueryOptions.cacheEligible, hc]
  constructor
  · intro p hp hcontra
    rcases mem_queryParams_key o p hp with hin | ⟨_, helig'⟩
    · rw [hcontra] at hin
      simp at hin
    · rw [helig'] at helig
      exact Bool.true_eq_false ▸ helig
  · intro p hp hcontra
    rcases mem_requestHeaders_key o p hp with htok | ⟨_, helig'⟩
    · rw [hcontra] at htok
      simp at htok
    · rw [helig'] at helig
      exact Bool.true_eq_false ▸ helig

/-- C8.  Under caching eligibility the projected headers carry at most one
`Cache-Control` header, whose value comma-joins the `max-age` and
`stale-if-error` components, each present exactly when its duration is at
least one whole second, and no such header at all when both are absent. -/
theorem catalog_c8 (o : QueryOptions) (hu : o.use_cache = true)
    (hc : o.consistency ≠ some Consistency.consistent) :
    o.requestHeaders.filter (fun p => p.1 == "Cache-Control") =
      if cacheControlComponents o = [] then []
      else [("Cache-Control", String.intercalate ", " (cacheControlComponents o))] := by
  have helig : o.cacheEligible = true := by
    rw [QueryOptions.cacheEligible, hu]
    cases hcons : o.consistency with
    | none => rfl
    | some c =>
      cases c with
      | consistent => exact absurd hcons hc
      | stale => rfl
  rw [QueryOptions.requestHeaders, if_pos helig, List.filter_append]
  have htok : (match o.token with
      | some t => [("X-Consul-Token", t)]
      | none => ([] : List (String × String))).filter
        (fun (p : String × String) => p.1 == "Cache-Control") = [] := by
    cases o.token <;> simp [List.filter]
  rw [htok, List.nil_append]
  show (if (cacheControlComponents o).isEmpty then ([] : List (String × String))
      else [("Cache-Control", String.intercalate ", " (cacheControlComponents o))]).filter
        (fun p => p.1 == "Cache-Control") = _
  cases hP : cacheControlComponents o with
  | nil => simp
  | cons c cs => simp [List.filter]

theorem catalog_c8_witness :
    (QueryOptions.requestHeaders
        { use_cache := true, consistency := some Consistency.stale
          cache_max_age := some (Duration.from_secs 30)
          cache_stale_if_error := some (Duration.from_secs 60) }).filter
        (fun p => p.1 == "Cache-Control") =
      [("Cache-Control", "max-age=30, stale-if-error=60")] :=
  (catalog_c8 _ rfl (by decide)).trans (by decide)

/-- C4.  Header extraction returns metadata or fails with a
malformed-headers error listing every header that was present but failed
to parse (collect-all, shown also on a response with two bad headers);
in particular a non-numeric index header fails naming exactly
`X-Consul-Index`. -/
theorem catalog_c4 :
    (∀ h : ResponseHeaders,
        (malformedNames h = [] ∧ ∃ m, fromHeaders h = Except.ok m) ∨
        (malformedNames h ≠ [] ∧
          fromHeaders h = Except.error (ResponseError.invalidHeaders (malformedNames h)))) ∧
      fromHeaders { xConsulIndex := some (strBytes "not-a-number") } =
        Except.error (ResponseError.invalidHeaders ["X-Consul-Index"]) ∧
      fromHeaders { xConsulIndex := some (strBytes "not-a-number"), age := some (strBytes "old") } =
        Except.error (ResponseError.invalidHeaders ["X-Consul-Index", "Age"]) := by
  refine ⟨fun h => ?_, by decide, by decide⟩
  rw [fromHeaders_spec]
  by_cases hm : malformedNames h = []
  · exact Or.inl ⟨hm, specMeta h, by rw [if_pos hm]⟩
  · exact Or.inr ⟨hm, by rw [if_neg hm]⟩

/-- C5, counterexample.  A cache-hit header with the valid value `true`
(case-insensitively equal to the literal `true`) is extracted with
`cache_hit = false`, refuting the claim that `cache_hit` is set exactly
when the value equals `true` case-insensitively. -/
theorem catalog_c5_counterexample :
    toStr? (strBytes "true") = some "true" ∧
      asciiLower "true" = "true" ∧
      fromHeaders { xCache := some (strBytes "true") } = Except.ok ({} : QueryMetadata) ∧
      ({} : QueryMetadata).cache_hit = false := by decide

/-- C5, amended.  A valid cache-hit header value sets `cache_hit` exactly
when it equals the literal `hit` under case-insensitive comparison, while
the leader and translate headers require the case-sensitive exact literal
`true`. -/
theorem catalog_c5_amended (h : ResponseHeaders) (m : QueryMetadata)
    (hok : fromHeaders h = Except.ok m) :
    (∀ raw s, h.xCache = some raw → toStr? raw = some s →
      (m.cache_hit = true ↔ asciiLower s = "hit")) ∧
    (∀ raw s, h.xConsulKnownLeader = some raw → toStr? raw = some s →
      (m.known_leader = true ↔ s = "true")) ∧
    (∀ raw s, h.xConsulTranslateAddresses = some raw → toStr? raw = some s →
      (m.addr_translate_enabled = true ↔ s = "true")) := by
  rw [fromHeaders_spec] at hok
  split at hok
  · have hms : m = specMeta h := by
      injection hok with hok
      exact hok.symm
    subst hms
    refine ⟨fun raw s hraw hs => ?_, fun raw s hraw hs => ?_, fun raw s hraw hs => ?_⟩ <;>
      simp [specMeta, cacheHitVal, exactTrueVal, strHeaderVal, hraw, hs]
  · exact absurd hok (by simp)

theorem catalog_c5_amended_witness :
    (({ cache_hit := true } : QueryMetadata).cache_hit = true ↔ asciiLower "HIT" = "hit") :=
  ((catalog_c5_amended { xCache := some (strBytes "HIT") } { cache_hit := true }
    (by decide)).1 (strBytes "HIT") "HIT" rfl (by decide))

theorem mem_if_singleton {c : Prop} [Decidable c] (a n : String) :
    (a ∈ if c then [n] else []) ↔ c ∧ a = n := by
  split <;> simp_all

theorem mem_malformedNames (h : ResponseHeaders) (x : String) :
    x ∈ malformedNames h ↔
      (numHeaderFails h.xConsulIndex = true ∧ x = "X-Consul-Index") ∨
      (strHeaderFails h.xConsulContentHash = true ∧ x = "X-Consul-ContentHash") ∨
      (strHeaderFails h.xConsulKnownLeader = true ∧ x = "X-Consul-KnownLeader") ∨
      (strHeaderFails h.xConsulTranslateAddresses = true ∧ x = "X-Consul-Translate-Addresses") ∨
      (strHeaderFails h.xCache = true ∧ x = "X-Cache") ∨
      (numHeaderFails h.age = true ∧ x = "Age") := by
  simp [malformedNames, List.mem_append, mem_if_singleton, or_assoc]

/-- C10.  A boolean header (leader, translate, cache-hit) whose value is a
valid string other than the recognized literal is not reported as
malformed: the corresponding field stays `false` and extraction can still
succeed. -/
theorem catalog_c10 (h : ResponseHeaders) :
    (∀ raw s, h.xConsulKnownLeader = some raw → toStr? raw = some s → s ≠ "true" →
      (∀ l, fromHeaders h = Except.error (ResponseError.invalidHeaders l) →
        ¬ "X-Consul-KnownLeader" ∈ l) ∧
      (∀ m, fromHeaders h = Except.ok m → m.known_leader = false)) ∧
    (∀ raw s, h.xConsulTranslateAddresses = some raw → toStr? raw = some s → s ≠ "true" →
      (∀ l, fromHeaders h = Except.error (ResponseError.invalidHeaders l) →
        ¬ "X-Consul-Translate-Addresses" ∈ l) ∧
      (∀ m, fromHeaders h = Except.ok m → m.addr_translate_enabled = false)) ∧
    (∀ raw s, h.xCache = some raw → toStr? raw = some s → asciiLower s ≠ "hit" →
      (∀ l, fromHeaders h = Except.error (ResponseError.invalidHeaders l) →
        ¬ "X-Cache" ∈ l) ∧
      (∀ m, fromHeaders h = Except.ok m → m.cache_hit = false)) := by
  refine ⟨fun raw s hraw hts hs => ⟨fun l hl hmem => ?_, fun m hm => ?_⟩,
    fun raw s hraw hts hs => ⟨fun l hl hmem => ?_, fun m hm => ?_⟩,
    fun raw s hraw hts hs => ⟨fun l hl hmem => ?_, fun m hm => ?_⟩⟩
  next =>
    rw [fromHeaders_spec] at hl
    split at hl
    · exact absurd hl (by simp)
    · injection hl with hl
      injection hl with hl
      rw [← hl, mem_malformedNames] at hmem
      simp only [strHeaderFails, hraw, hts, Option.isNone_some] at hmem
      simp_all
  next =>
    rw [fromHeaders_spec] at hm
    split at hm
    · injection hm with hm
      rw [← hm]
      simp [specMeta, exactTrueVal, strHeaderVal, hraw, hts, hs]
    · exact absurd hm (by simp)
  next =>
    rw [fromHeaders_spec] at hl
    split at hl
    · exact absurd hl (by simp)
    · injection hl with hl
      injection hl with hl
      rw [← hl, mem_malformedNames] at hmem
      simp only [strHeaderFails, hraw, hts, Option.isNone_some] at hmem
      simp_all
  next =>
    rw [fromHeaders_spec] at hm
    split at hm
    · injection hm with hm
      rw [← hm]
      simp [specMeta, exactTrueVal, strHeaderVal, hraw, hts, hs]
    · exact absurd hm (by simp)
  next =>
    rw [fromHeaders_spec] at hl
    split at hl
    · exact absurd hl (by simp)
    · injection hl with hl
      injection hl with hl
      rw [← hl, mem_malformedNames] at hmem
      simp only [strHeaderFails, hraw, hts, Option.isNone_some] at hmem
      simp_all
  next =>
    rw [fromHeaders_spec] at hm
    split at hm
    · injection hm with hm
      rw [← hm]
      simp [specMeta, cacheHitVal, strHeaderVal, hraw, hts, hs]
    · exact absurd hm (by simp)

/-- Concrete headers for the C10 witness: three boolean headers with
valid but unrecognized values. -/
def c10Headers : ResponseHeaders :=
  { xConsulKnownLeader := some (strBytes "banana")
    xConsulTranslateAddresses := some (strBytes "TRUE")
    xCache := some (strBytes "false") }

theorem catalog_c10_witness :
    ({} : QueryMetadata).known_leader = false ∧
      ({} : QueryMetadata).addr_translate_enabled = false ∧
      ({} : QueryMetadata).cache_hit = false := by
  refine ⟨?_, ?_, ?_⟩
  · exact ((catalog_c10 c10Headers).1 (strBytes "banana") "banana" rfl (by decide)
      (by decide)).2 {} (by decide)
  · exact ((catalog_c10 c10Headers).2.1 (strBytes "TRUE") "TRUE" rfl (by decide)
      (by decide)).2 {} (by decide)
  · exact ((catalog_c10 c10Headers).2.2 (strBytes "false") "false" rfl (by decide)
      (by decide)).2 {} (by decide)

theorem catalog_c3_witness :
    (∀ p ∈ QueryOptions.queryParams
        { consistency := some Consistency.consistent, use_cache := true
          cache_max_age := some (Duration.from_secs 30) }, p.1 ≠ "cached") ∧
    (∀ p ∈ QueryOptions.requestHeaders
        { consistency := some Consistency.consistent, use_cache := true
          cache_max_age := some (Duration.from_secs 30) }, p.1 ≠ "Cache-Control") :=
  catalog_c3 _ rfl rfl

/-- C6.  When the projector produces a key that the base endpoint's query
already contains, the built request's final query holds that key exactly
once with the projector's value, and every non-colliding pre-existing key
keeps its base value. -/
theorem catalog_c6 (base : Url) (parts : List String) (opts : Option QueryOptions)
    (k : String) (hk : k ∈ (optQueryParams opts).map Prod.fst)
    (url : Url) (hdrs : List (String × String))
    (hb : buildRequest base parts opts = BuildOutcome.built url hdrs) :
    ((url.queryPairs.map Prod.fst).count k = 1 ∧
      firstVal url.queryPairs k = lastVal (optQueryParams opts) k) ∧
    (∀ k', k' ∈ base.queryPairs.map Prod.fst → ¬ k' ∈ (optQueryParams opts).map Prod.fst →
      firstVal url.queryPairs k' = lastVal base.queryPairs k') := by
  have hne : (optQueryParams opts).isEmpty = false := by
    cases hq : optQueryParams opts with
    | nil => rw [hq] at hk; simp at hk
    | cons a l => rfl
  have hq : url.queryPairs = mergeQueryPairs base.queryPairs (optQueryParams opts) := by
    rw [buildRequest] at hb
    split at hb
    · injection hb with hurl _
      rw [← hurl]
      simp [hne]
    · exact absurd hb (by simp)
  have hlast : (lastVal (optQueryParams opts) k).isSome = true :=
    (lastVal_isSome_iff _ _).mpr hk
  have hfirst : firstVal url.queryPairs k = lastVal (optQueryParams opts) k := by
    rw [hq, firstVal_mergeQueryPairs]
    cases hl : lastVal (optQueryParams opts) k with
    | none => rw [hl] at hlast; simp at hlast
    | some v => rfl
  refine ⟨⟨?_, hfirst⟩, fun k' hk' hnk' => ?_⟩
  · have hmem : k ∈ url.queryPairs.map Prod.fst := by
      rw [← firstVal_isSome_iff, hfirst]
      exact hlast
    have hnd : (url.queryPairs.map Prod.fst).Nodup := by
      rw [hq]
      exact nodup_keys_mergeQueryPairs _ _
    exact List.count_eq_one_of_mem hnd hmem
  · have hnone : lastVal (optQueryParams opts) k' = none := by
      cases hl : lastVal (optQueryParams opts) k' with
      | none => rfl
      | some v =>
        have := (lastVal_isSome_iff (optQueryParams opts) k').mp (by rw [hl]; rfl)
        exact absurd this hnk'
    rw [hq, firstVal_mergeQueryPairs, hnone]

theorem catalog_c6_witness :
    (((Url.mk ["v1", "catalog", "service", "web"]
            [("dc", "west"), ("x", "1")]).queryPairs.map Prod.fst).count "dc" = 1 ∧
      firstVal [("dc", "west"), ("x", "1")] "dc" =
        lastVal (optQueryParams (some { datacenter := some "west" })) "dc") ∧
      firstVal [("dc", "west"), ("x", "1")] "x" = lastVal [("dc", "east"), ("x", "1")] "x" := by
  have h := catalog_c6 (Url.mk ["v1"] [("dc", "east"), ("x", "1")])
    ["catalog", "service", "web"] (some { datacenter := some "west" }) "dc"
    (by decide) (Url.mk ["v1", "catalog", "service", "web"] [("dc", "west"), ("x", "1")]) []
    (by decide)
  exact ⟨h.1, h.2 "x" (by decide) (by decide)⟩

/-- The options value of the C7 counterexample: a token holding a control
character, which is not a valid transport header value. -/
def badTokenOpts : QueryOptions := { token := some "bad\ntoken" }

/-- C7, counterexample.  A projected header pair with an invalid value
makes `build_request` panic (the `expect` on the header conversion)
instead of returning the `InvalidRequest` error the claim predicts. -/
theorem catalog_c7_counterexample :
    validHeaderValue "bad\ntoken" = false ∧
      ("X-Consul-Token", "bad\ntoken") ∈ optRequestHeaders (some badTokenOpts) ∧
      buildRequest { pathSegments := ["v1"], queryPairs := [] } ["agent"]
          (some badTokenOpts) = BuildOutcome.panicked ∧
      BuildOutcome.panicked ≠ BuildOutcome.err Error.invalidRequest := by decide

/-- C7, amended.  A projected header pair whose name or value is not a
valid transport header token makes the build panic on the conversion's
internal assertion — not return an `InvalidRequest` error — and a build
that does return a request attaches every projected header unchanged
(none dropped or truncated). -/
theorem catalog_c7_amended (base : Url) (parts : List String) (opts : Option QueryOptions) :
    ((optRequestHeaders opts).any
        (fun p => !(validHeaderName p.1 && validHeaderValue p.2)) = true →
      buildRequest base parts opts = BuildOutcome.panicked) ∧
    (∀ url hdrs, buildRequest base parts opts = BuildOutcome.built url hdrs →
      hdrs = optRequestHeaders opts) := by
  constructor
  · intro hbad
    rw [buildRequest]
    have hall : (optRequestHeaders opts).all
        (fun p => validHeaderName p.1 && validHeaderValue p.2) = false := by
      rcases List.any_eq_true.mp hbad with ⟨p, hp, hv⟩
      refine List.all_eq_false.mpr ⟨p, hp, fun hc => ?_⟩
      rw [hc] at hv
      simp at hv
    rw [if_neg (by simp [hall])]
  · intro url hdrs hb
    rw [buildRequest] at hb
    split at hb
    · injection hb with _ hh
      exact hh.symm
    · exact absurd hb (by simp)

theorem catalog_c7_amended_witness :
    buildRequest { pathSegments := ["v1"], queryPairs := [] } ["agent"]
        (some badTokenOpts) = BuildOutcome.panicked :=
  (catalog_c7_amended _ _ _).1 (by decide)

/-- C9.  With no options, the projection yields no query parameters and no
headers, and the built request carries the base endpoint's path and query
unchanged apart from the appended path segments. -/
theorem catalog_c9 (base : Url) (parts : List String) :
    optQueryParams none = [] ∧ optRequestHeaders none = [] ∧
      buildRequest base parts none =
        BuildOutcome.built
          { pathSegments := base.pathSegments ++ parts, queryPairs := base.queryPairs } [] := by
  refine ⟨rfl, rfl, ?_⟩
  rw [buildRequest]
  simp [optQueryParams, optRequestHeaders]

/-- C1.  Against a transport answering index 1, then index 2, then a
connection-reset error, the watch stream yields exactly two successful
items and then exactly one terminal error and nothing more (for every
fuel bound of at least three iterations the output is the same), and the
three issued requests carry the blocking conditions: none, `Index(1)`,
`Index(2)`. -/
theorem catalog_c1 (base : Url) (service : String) (n : Nat) :
    watchServiceNodes mockTransport base service none (n + 3) =
      ([Except.ok (10, { last_index := some 1 }), Except.ok (20, { last_index := some 2 }),
        Except.error Error.requestError],
       [none, some (Blocking.index 1), some (Blocking.index 2)]) := by
  have hb : ∀ (b : Option Blocking), ∃ u,
      buildRequest base ["v1", "catalog", "service", service]
        (some { ({} : QueryOptions) with blocking := b }) = BuildOutcome.built u [] := by
    intro b
    rw [buildRequest]
    exact ⟨_, rfl⟩
  obtain ⟨u0, h0⟩ := hb none
  obtain ⟨u1, h1⟩ := hb (some (Blocking.index 1))
  obtain ⟨u2, h2⟩ := hb (some (Blocking.index 2))
  have ht0 : mockTransport 0 = Except.ok
      { status := 200, headers := { xConsulIndex := some (strBytes "1") }, body := Except.ok 10 } := rfl
  have ht1 : mockTransport 1 = Except.ok
      { status := 200, headers := { xConsulIndex := some (strBytes "2") }, body := Except.ok 20 } := rfl
  have ht2 : mockTransport 2 = Except.error Error.requestError := rfl
  have hf1 : fromHeaders { xConsulIndex := some (strBytes "1") } =
      Except.ok { last_index := some 1 } := by decide
  have hf2 : fromHeaders { xConsulIndex := some (strBytes "2") } =
      Except.ok { last_index := some 2 } := by decide
  have ha1 : asBlocking { last_index := some 1 } = some (Blocking.index 1) := rfl
  have ha2 : asBlocking { last_index := some 2 } = some (Blocking.index 2) := rfl
  have hss : isSuccessStatus 200 = true := rfl
  rw [watchServiceNodes]
  show watchGo mockTransport base service {} (((n + 1) + 1) + 1) 0 none = _
  simp only [watchGo, h0, h1, h2, ht0, ht1, ht2, hf1, hf2, ha1, ha2, hss, if_true]

end AsyncConsul
